import Mathlib

/-!
Shallow embedding of the winpipe wire codec (src/wire.rs), protocol engine
(src/compositor.rs) and pixel-frame channel (src/render.rs), together with
theorems checking the specification's claims about them.

Machine integers are modelled as `Nat` with explicit `% 2 ^ 32` where the
source performs `as u32` casts or wrapping u32 arithmetic.  Byte buffers are
`List Nat` (genuine byte data has entries below 256).  Fallible operations
return `Option`.
-/

namespace Winpipe

/-- Little-endian bytes of a 32-bit value, as written by
`write_u32::<LittleEndian>` / `u32::to_le_bytes` (low byte first). -/
def u32ToLE (n : Nat) : List Nat :=
  [n % 256, n / 256 % 256, n / 256 ^ 2 % 256, n / 256 ^ 3 % 256]

/-- Value of four little-endian bytes, as read by `read_u32::<LittleEndian>` /
`u32::from_le_bytes`. -/
def leToU32 (b0 b1 b2 b3 : Nat) : Nat :=
  b0 + 256 * b1 + 256 ^ 2 * b2 + 256 ^ 3 * b3

/-- UTF-8 bytes of a string.  All strings in this development are ASCII, where
the UTF-8 bytes coincide with the character code points. -/
def strBytes (s : String) : List Nat := s.toList.map Char.toNat

/-- `HEADER_SIZE` from src/wire.rs. -/
def HEADER_SIZE : Nat := 8

/-- `MAX_MESSAGE_SIZE` from src/wire.rs. -/
def MAX_MESSAGE_SIZE : Nat := 65536

/-- `Message` from src/wire.rs: `object_id` is a u32, `opcode` a u16,
`payload` the raw bytes after the 8-byte header. -/
structure Message where
  object_id : Nat
  opcode : Nat
  payload : List Nat
  fd_count : Nat
deriving DecidableEq

/-- `Message::new`. -/
def Message.new (object_id opcode : Nat) (payload : List Nat) : Message :=
  { object_id := object_id, opcode := opcode, payload := payload, fd_count := 0 }

/-- `Message::wire_size`. -/
def Message.wire_size (m : Message) : Nat := HEADER_SIZE + m.payload.length

/-- `Message::encode`: object id, then `size << 16 | opcode` computed in u32
arithmetic (hence the `% 2 ^ 32` for the `as u32` cast and the wrapping
shift), then the payload. -/
def Message.encode (m : Message) : List Nat :=
  u32ToLE m.object_id ++
    u32ToLE (((m.wire_size % 2 ^ 32) <<< 16) % 2 ^ 32 ||| m.opcode) ++
    m.payload

/-- `Message::decode`. -/
def Message.decode (data : List Nat) : Option Message :=
  if data.length < HEADER_SIZE then
    none
  else
    let object_id := leToU32 (data.getD 0 0) (data.getD 1 0) (data.getD 2 0) (data.getD 3 0)
    let size_opcode := leToU32 (data.getD 4 0) (data.getD 5 0) (data.getD 6 0) (data.getD 7 0)
    let size := size_opcode >>> 16
    let opcode := size_opcode &&& 0xFFFF
    if size < HEADER_SIZE then none
    else if size > MAX_MESSAGE_SIZE then none
    else if data.length < size then none
    else some { object_id := object_id, opcode := opcode,
                payload := (data.drop HEADER_SIZE).take (size - HEADER_SIZE),
                fd_count := 0 }

/-- `WireDecoder` from src/wire.rs: the streaming decoder state (its internal
byte buffer). -/
structure WireDecoder where
  buffer : List Nat
deriving DecidableEq

/-- `WireDecoder::new`. -/
def WireDecoder.new : WireDecoder := { buffer := [] }

/-- `WireDecoder::push`. -/
def WireDecoder.push (d : WireDecoder) (data : List Nat) : WireDecoder :=
  { buffer := d.buffer ++ data }

/-- `WireDecoder::decode`: returns the updated decoder state together with the
`Option<Message>` result of one invocation. -/
def WireDecoder.decode (d : WireDecoder) : WireDecoder × Option Message :=
  if d.buffer.length < HEADER_SIZE then (d, none)
  else
    let size_opcode :=
      leToU32 (d.buffer.getD 4 0) (d.buffer.getD 5 0) (d.buffer.getD 6 0) (d.buffer.getD 7 0)
    let size := size_opcode >>> 16
    if size < HEADER_SIZE ∨ size > MAX_MESSAGE_SIZE then ({ buffer := [] }, none)
    else if d.buffer.length < size then (d, none)
    else ({ buffer := d.buffer.drop size }, Message.decode (d.buffer.take size))

/-- `WireDecoder::buffered`. -/
def WireDecoder.buffered (d : WireDecoder) : Nat := d.buffer.length

/-- `WireEncoder::encode_batch`: concatenation of the encodings, in order. -/
def encode_batch (messages : List Message) : List Nat :=
  (messages.map Message.encode).flatten

/-! ### Byte-level helper lemmas -/

theorem bytes_roundtrip (n : Nat) :
    leToU32 (n % 256) (n / 256 % 256) (n / 256 ^ 2 % 256) (n / 256 ^ 3 % 256) = n % 2 ^ 32 := by
  unfold leToU32
  norm_num
  omega

theorem getD_low (x y : Nat) (q : List Nat) :
    leToU32 ((u32ToLE x ++ u32ToLE y ++ q).getD 0 0) ((u32ToLE x ++ u32ToLE y ++ q).getD 1 0)
      ((u32ToLE x ++ u32ToLE y ++ q).getD 2 0) ((u32ToLE x ++ u32ToLE y ++ q).getD 3 0)
      = x % 2 ^ 32 := by
  show leToU32 (x % 256) (x / 256 % 256) (x / 256 ^ 2 % 256) (x / 256 ^ 3 % 256) = x % 2 ^ 32
  exact bytes_roundtrip x

theorem getD_high (x y : Nat) (q : List Nat) :
    leToU32 ((u32ToLE x ++ u32ToLE y ++ q).getD 4 0) ((u32ToLE x ++ u32ToLE y ++ q).getD 5 0)
      ((u32ToLE x ++ u32ToLE y ++ q).getD 6 0) ((u32ToLE x ++ u32ToLE y ++ q).getD 7 0)
      = y % 2 ^ 32 := by
  show leToU32 (y % 256) (y / 256 % 256) (y / 256 ^ 2 % 256) (y / 256 ^ 3 % 256) = y % 2 ^ 32
  exact bytes_roundtrip y

theorem take_shape (x y : Nat) (q : List Nat) (k : Nat) :
    (u32ToLE x ++ u32ToLE y ++ q).take (k + 8) = u32ToLE x ++ u32ToLE y ++ q.take k := rfl

theorem drop_shape (x y : Nat) (q : List Nat) (k : Nat) :
    (u32ToLE x ++ u32ToLE y ++ q).drop (k + 8) = q.drop k := rfl

theorem drop_shape8 (x y : Nat) (q : List Nat) :
    (u32ToLE x ++ u32ToLE y ++ q).drop 8 = q := rfl

theorem shape_length (x y : Nat) (q : List Nat) :
    (u32ToLE x ++ u32ToLE y ++ q).length = q.length + 8 := by
  simp [u32ToLE]

theorem encode_eq (m : Message) :
    m.encode = u32ToLE m.object_id ++
      u32ToLE (((m.wire_size % 2 ^ 32) <<< 16) % 2 ^ 32 ||| m.opcode) ++ m.payload := rfl

theorem encode_length (m : Message) : m.encode.length = m.payload.length + 8 := by
  rw [encode_eq]
  exact shape_length _ _ _

/-- For a message whose payload fits (total size at most 65535), the packed
`size << 16 | opcode` field equals `2 ^ 16 * wire_size + opcode`. -/
theorem size_opcode_val (m : Message) (hop : m.opcode < 2 ^ 16) (hp : m.payload.length ≤ 65527) :
    ((m.wire_size % 2 ^ 32) <<< 16) % 2 ^ 32 ||| m.opcode = 2 ^ 16 * m.wire_size + m.opcode := by
  have h16 : (2 : Nat) ^ 16 = 65536 := by norm_num
  have h32 : (2 : Nat) ^ 32 = 4294967296 := by norm_num
  have hw : m.wire_size = 8 + m.payload.length := rfl
  have hws : m.wire_size < 2 ^ 16 := by omega
  have h1 : m.wire_size % 2 ^ 32 = m.wire_size := Nat.mod_eq_of_lt (by omega)
  have h2 : m.wire_size <<< 16 = 2 ^ 16 * m.wire_size := by
    rw [Nat.shiftLeft_eq]; ring
  have h3 : 2 ^ 16 * m.wire_size < 2 ^ 32 := by
    have := (Nat.mul_lt_mul_left (a := 2 ^ 16) (by norm_num)).2 hws
    omega
  rw [h1, h2, Nat.mod_eq_of_lt h3]
  exact (Nat.mul_add_lt_is_or hop m.wire_size).symm

/-- Decoding an encoded message recovers its object id, opcode and payload
(`fd_count` is reset to 0, as `Message::decode` always does). -/
theorem decode_encode (m : Message) (ho : m.object_id < 2 ^ 32)
    (hop : m.opcode < 2 ^ 16) (hp : m.payload.length ≤ 65527) :
    Message.decode m.encode = some (Message.new m.object_id m.opcode m.payload) := by
  have h16 : (2 : Nat) ^ 16 = 65536 := by norm_num
  have h32 : (2 : Nat) ^ 32 = 4294967296 := by norm_num
  have hw : m.wire_size = 8 + m.payload.length := rfl
  have hso := size_opcode_val m hop hp
  have hsolt : 2 ^ 16 * m.wire_size + m.opcode < 2 ^ 32 := by omega
  have hsize : (2 ^ 16 * m.wire_size + m.opcode) >>> 16 = m.wire_size := by
    rw [Nat.shiftRight_eq_div_pow]
    omega
  have hopc : (2 ^ 16 * m.wire_size + m.opcode) &&& 0xFFFF = m.opcode := by
    have hff : (0xFFFF : Nat) = 2 ^ 16 - 1 := by norm_num
    rw [hff, Nat.and_pow_two_sub_one_eq_mod]
    omega
  simp only [Message.decode, encode_eq, shape_length, getD_low, getD_high, hso,
    Nat.mod_eq_of_lt hsolt, Nat.mod_eq_of_lt ho, hsize, hopc, HEADER_SIZE, MAX_MESSAGE_SIZE]
  rw [if_neg (by omega), if_neg (by omega), if_neg (by omega), if_neg (by omega)]
  rw [drop_shape8]
  have htk : m.wire_size - 8 = m.payload.length := by omega
  rw [htk, List.take_length]
  rfl

/-! ### Streaming decoder lemmas -/

theorem wire_decode_nil : WireDecoder.decode { buffer := [] } = ({ buffer := [] }, none) := rfl

/-- One `WireDecoder::decode` invocation on a buffer that starts with a complete
encoded message consumes exactly that message's bytes and returns it. -/
theorem wire_decode_complete (m : Message) (rest : List Nat) (ho : m.object_id < 2 ^ 32)
    (hop : m.opcode < 2 ^ 16) (hp : m.payload.length ≤ 65527) :
    WireDecoder.decode { buffer := m.encode ++ rest } =
      ({ buffer := rest }, some (Message.new m.object_id m.opcode m.payload)) := by
  have h16 : (2 : Nat) ^ 16 = 65536 := by norm_num
  have h32 : (2 : Nat) ^ 32 = 4294967296 := by norm_num
  have hw : m.wire_size = 8 + m.payload.length := rfl
  have hso := size_opcode_val m hop hp
  have hsolt : 2 ^ 16 * m.wire_size + m.opcode < 2 ^ 32 := by omega
  have hsoMod : (((m.wire_size % 2 ^ 32) <<< 16) % 2 ^ 32 ||| m.opcode) % 2 ^ 32
      = 2 ^ 16 * m.wire_size + m.opcode := by
    rw [hso]; exact Nat.mod_eq_of_lt hsolt
  have hsize : (2 ^ 16 * m.wire_size + m.opcode) >>> 16 = m.wire_size := by
    rw [Nat.shiftRight_eq_div_pow]
    omega
  have hassoc : m.encode ++ rest =
      u32ToLE m.object_id ++
        u32ToLE (((m.wire_size % 2 ^ 32) <<< 16) % 2 ^ 32 ||| m.opcode) ++
        (m.payload ++ rest) := by
    simp [Message.encode, List.append_assoc]
  have hw2 : m.wire_size = m.payload.length + 8 := by omega
  have hla : (m.payload ++ rest).length = m.payload.length + rest.length :=
    List.length_append _ _
  have htake : (u32ToLE m.object_id ++
      u32ToLE (((m.wire_size % 2 ^ 32) <<< 16) % 2 ^ 32 ||| m.opcode) ++
      (m.payload ++ rest)).take m.wire_size = m.encode := by
    nth_rewrite 1 [hw2]
    rw [take_shape, List.take_left' rfl, ← encode_eq]
  have hdrop : (u32ToLE m.object_id ++
      u32ToLE (((m.wire_size % 2 ^ 32) <<< 16) % 2 ^ 32 ||| m.opcode) ++
      (m.payload ++ rest)).drop m.wire_size = rest := by
    nth_rewrite 1 [hw2]
    rw [drop_shape, List.drop_left' rfl]
  simp only [WireDecoder.decode, hassoc, shape_length, getD_high, hsoMod, hsize,
    HEADER_SIZE, MAX_MESSAGE_SIZE]
  rw [if_neg (by omega), if_neg (by omega), if_neg (by omega)]
  rw [htake, hdrop, decode_encode m ho hop hp]

/-- One `WireDecoder::decode` invocation on a proper prefix of an encoded
message leaves the buffer untouched and reports that more data is needed. -/
theorem wire_decode_incomplete (m : Message) (k : Nat)
    (hop : m.opcode < 2 ^ 16) (hp : m.payload.length ≤ 65527) (hk : k < m.wire_size) :
    WireDecoder.decode { buffer := m.encode.take k } = ({ buffer := m.encode.take k }, none) := by
  have h16 : (2 : Nat) ^ 16 = 65536 := by norm_num
  have hw : m.wire_size = 8 + m.payload.length := rfl
  have hlen : (m.encode.take k).length = k := by
    rw [List.length_take, encode_length]
    omega
  by_cases h8 : k < 8
  · unfold WireDecoder.decode
    rw [if_pos (by rw [hlen]; simp [HEADER_SIZE]; omega)]
  · have hso := size_opcode_val m hop hp
    have hsolt : 2 ^ 16 * m.wire_size + m.opcode < 2 ^ 32 := by
      have h32 : (2 : Nat) ^ 32 = 4294967296 := by norm_num
      omega
    have hsoMod : (((m.wire_size % 2 ^ 32) <<< 16) % 2 ^ 32 ||| m.opcode) % 2 ^ 32
        = 2 ^ 16 * m.wire_size + m.opcode := by
      rw [hso]; exact Nat.mod_eq_of_lt hsolt
    have hsize : (2 ^ 16 * m.wire_size + m.opcode) >>> 16 = m.wire_size := by
      rw [Nat.shiftRight_eq_div_pow]
      omega
    have hk8 : k = (k - 8) + 8 := by omega
    have htk : m.encode.take k =
        u32ToLE m.object_id ++
          u32ToLE (((m.wire_size % 2 ^ 32) <<< 16) % 2 ^ 32 ||| m.opcode) ++
          m.payload.take (k - 8) := by
      conv_lhs => rw [encode_eq, hk8]
      rw [take_shape]
    have hlen2 : (m.payload.take (k - 8)).length = k - 8 := by
      rw [List.length_take]
      omega
    simp only [WireDecoder.decode, htk, shape_length, getD_high, hsoMod, hsize, hlen2,
      HEADER_SIZE, MAX_MESSAGE_SIZE]
    rw [if_neg (by omega), if_neg (by omega), if_pos (by omega)]

/-! ### C1: decode after encode -/

/-- A record with a 65528-byte payload has total size 65536, whose
`size << 16` wraps to 0 in u32 arithmetic, so decoding its encoding fails. -/
theorem decode_encode_overflow (p : List Nat) (hp : p.length = 65528) :
    Message.decode (Message.new 0 0 p).encode = none := by
  have hw : (Message.new 0 0 p).wire_size = 65536 := by
    show HEADER_SIZE + p.length = 65536
    rw [hp]
    rfl
  have hso : (((Message.new 0 0 p).wire_size % 2 ^ 32) <<< 16) % 2 ^ 32
      ||| (Message.new 0 0 p).opcode = 0 := by
    rw [hw, show (Message.new 0 0 p).opcode = 0 from rfl]
    norm_num [Nat.shiftLeft_eq]
  have hpayl : (Message.new 0 0 p).payload = p := rfl
  simp only [Message.decode, encode_eq, shape_length, getD_high, hso, hpayl, Nat.zero_mod,
    Nat.zero_shiftRight, HEADER_SIZE, MAX_MESSAGE_SIZE, hp]
  norm_num

/-- C1, counterexample at the stated bound: a record whose payload length is
exactly 65528 satisfies the claim's hypothesis yet decoding its encoding fails
instead of returning the record. -/
theorem C1_counterexample :
    (Message.new 0 0 (List.replicate 65528 0)).payload.length ≤ 65528 ∧
    Message.decode (Message.new 0 0 (List.replicate 65528 0)).encode = none :=
  ⟨by rw [show (Message.new 0 0 (List.replicate 65528 0)).payload
        = List.replicate (65528 : Nat) 0 from rfl, List.length_replicate],
   decode_encode_overflow _ (by rw [List.length_replicate])⟩

/-- C1 (amended): for every record whose payload length is at most 65527,
decoding the encoding succeeds and returns a record with the same object id,
opcode and payload. -/
theorem C1_roundtrip (m : Message) (ho : m.object_id < 2 ^ 32) (hop : m.opcode < 2 ^ 16)
    (hbytes : ∀ b ∈ m.payload, b < 256) (hp : m.payload.length ≤ 65527) :
    Message.decode m.encode = some (Message.new m.object_id m.opcode m.payload) :=
  decode_encode m ho hop hp

theorem C1_witness :
    Message.decode (Message.new 1 5 [18, 52, 86, 120]).encode
      = some (Message.new 1 5 [18, 52, 86, 120]) :=
  C1_roundtrip (Message.new 1 5 [18, 52, 86, 120]) (by decide) (by decide)
    (by decide) (by decide)

/-! ### C3: the streaming decoder only returns well-formed records -/

/-- Any successfully parsed message has total size between 8 and 65536 and a
payload of exactly `size - 8` bytes. -/
theorem message_decode_wellformed (data : List Nat) (m : Message)
    (h : Message.decode data = some m) :
    HEADER_SIZE ≤ m.wire_size ∧ m.wire_size ≤ MAX_MESSAGE_SIZE ∧
      m.payload.length = m.wire_size - HEADER_SIZE := by
  simp only [Message.decode] at h
  split_ifs at h with h1 h2 h3 h4
  all_goals try exact Option.noConfusion h
  obtain rfl := Option.some.inj h
  simp only [Message.wire_size, List.length_take, List.length_drop, HEADER_SIZE,
    MAX_MESSAGE_SIZE] at *
  omega

/-- C3: on any buffered byte sequence, whenever fewer than a header's worth of
bytes is buffered the decoder asks for more data, and every record it ever
returns is well-formed (total size in [8, 65536], payload exactly size − 8). -/
theorem C3_safety (d : WireDecoder) :
    (d.buffer.length < HEADER_SIZE → d.decode = (d, none)) ∧
    ∀ m : Message, (d.decode).2 = some m →
      HEADER_SIZE ≤ m.wire_size ∧ m.wire_size ≤ MAX_MESSAGE_SIZE ∧
        m.payload.length = m.wire_size - HEADER_SIZE := by
  constructor
  · intro h
    unfold WireDecoder.decode
    rw [if_pos h]
  · intro m hm
    simp only [WireDecoder.decode] at hm
    split_ifs at hm with h1 h2 h3
    all_goals try exact Option.noConfusion hm
    exact message_decode_wellformed _ m hm

theorem C3_witness :
    HEADER_SIZE ≤ (Message.new 1 5 [1, 2, 3, 4]).wire_size ∧
    (Message.new 1 5 [1, 2, 3, 4]).wire_size ≤ MAX_MESSAGE_SIZE ∧
    (Message.new 1 5 [1, 2, 3, 4]).payload.length
      = (Message.new 1 5 [1, 2, 3, 4]).wire_size - HEADER_SIZE :=
  (C3_safety { buffer := (Message.new 1 5 [1, 2, 3, 4]).encode }).2
    (Message.new 1 5 [1, 2, 3, 4]) (by decide)

/-! ### C4: corrupt size field clears the buffer; recovery afterwards -/

theorem getD_lt_of_bytes (bs : List Nat) (hb : ∀ b ∈ bs, b < 256) (i : Nat)
    (hi : i < bs.length) : bs.getD i 0 < 256 := by
  rw [List.getD_eq_getElem?_getD, List.getElem?_eq_getElem hi]
  exact hb _ (List.getElem_mem hi)

theorem leToU32_lt (b0 b1 b2 b3 : Nat) (h0 : b0 < 256) (h1 : b1 < 256) (h2 : b2 < 256)
    (h3 : b3 < 256) : leToU32 b0 b1 b2 b3 < 2 ^ 32 := by
  unfold leToU32
  norm_num
  omega

/-- C4: with at least 8 bytes buffered and the size field out of range, decode
discards the whole buffer and yields the need-more sentinel; pushing the bytes
of any complete well-formed record to the (now empty) decoder afterwards makes
the next decode return exactly that record. -/
theorem C4_corrupt_clear (d : WireDecoder) (h8 : HEADER_SIZE ≤ d.buffer.length)
    (hbad : (leToU32 (d.buffer.getD 4 0) (d.buffer.getD 5 0) (d.buffer.getD 6 0)
        (d.buffer.getD 7 0)) >>> 16 < HEADER_SIZE ∨
      (leToU32 (d.buffer.getD 4 0) (d.buffer.getD 5 0) (d.buffer.getD 6 0)
        (d.buffer.getD 7 0)) >>> 16 > MAX_MESSAGE_SIZE) :
    d.decode = ({ buffer := [] }, none) ∧
    ∀ bs : List Nat, (∀ b ∈ bs, b < 256) → HEADER_SIZE ≤ bs.length →
      bs.length = (leToU32 (bs.getD 4 0) (bs.getD 5 0) (bs.getD 6 0) (bs.getD 7 0)) >>> 16 →
      (WireDecoder.new.push bs).decode = ({ buffer := [] }, Message.decode bs) ∧
        (Message.decode bs).isSome = true := by
  constructor
  · unfold WireDecoder.decode
    rw [if_neg (by omega), if_pos hbad]
  · intro bs hbytes hlen8 hsz
    have hH8 : HEADER_SIZE = 8 := rfl
    have hM : MAX_MESSAGE_SIZE = 65536 := rfl
    have hso : leToU32 (bs.getD 4 0) (bs.getD 5 0) (bs.getD 6 0) (bs.getD 7 0) < 2 ^ 32 := by
      refine leToU32_lt _ _ _ _ ?_ ?_ ?_ ?_ <;>
        exact getD_lt_of_bytes bs hbytes _ (by omega)
    have hszle : (leToU32 (bs.getD 4 0) (bs.getD 5 0) (bs.getD 6 0) (bs.getD 7 0)) >>> 16
        ≤ 65535 := by
      have h := hso
      rw [show (2 : Nat) ^ 32 = 4294967296 from by norm_num] at h
      rw [Nat.shiftRight_eq_div_pow, show (2 : Nat) ^ 16 = 65536 from by norm_num]
      omega
    have hpush : WireDecoder.new.push bs = { buffer := bs } := by
      simp [WireDecoder.new, WireDecoder.push]
    constructor
    · rw [hpush]
      simp only [WireDecoder.decode]
      rw [if_neg (by omega), if_neg (by omega), if_neg (by omega)]
      rw [← hsz, List.take_length, List.drop_length]
    · unfold Message.decode
      rw [if_neg (by omega), if_neg (by omega), if_neg (by omega), if_neg (by omega)]
      rfl

/-! ### C2: streaming decode of chunked record sequences -/

/-- One interaction step with the streaming decoder: either push a chunk of
bytes or invoke decode once. -/
inductive DecOp where
  | push : List Nat → DecOp
  | step : DecOp
deriving DecidableEq

/-- Run a sequence of interaction steps against a decoder, collecting every
record the decode invocations return, in order. -/
def runOps : WireDecoder → List DecOp → WireDecoder × List Message
  | d, [] => (d, [])
  | d, DecOp.push c :: ops => runOps (d.push c) ops
  | d, DecOp.step :: ops =>
    let p := d.decode
    let r := runOps p.1 ops
    (r.1, p.2.toList ++ r.2)

/-- The bytes pushed by a sequence of interaction steps, in order. -/
def pushedBytes (ops : List DecOp) : List Nat :=
  (ops.map fun op => match op with | DecOp.push c => c | DecOp.step => []).flatten

/-- The record a successful decode reports for `m`: same object id, opcode and
payload, with `fd_count` reset to 0. -/
def Message.canon (m : Message) : Message := Message.new m.object_id m.opcode m.payload

/-- A genuine wire record whose encoding round-trips: u32 object id, u16
opcode, u8 payload bytes, and payload short enough for the 16-bit size
field (total size at most 65535). -/
def GoodMsg (m : Message) : Prop :=
  m.object_id < 2 ^ 32 ∧ m.opcode < 2 ^ 16 ∧ (∀ b ∈ m.payload, b < 256) ∧
    m.payload.length ≤ 65527

theorem pushedBytes_push (c : List Nat) (ops : List DecOp) :
    pushedBytes (DecOp.push c :: ops) = c ++ pushedBytes ops := rfl

theorem pushedBytes_step (ops : List DecOp) :
    pushedBytes (DecOp.step :: ops) = pushedBytes ops := rfl

theorem encode_batch_append (A B : List Message) :
    encode_batch (A ++ B) = encode_batch A ++ encode_batch B := by
  simp [encode_batch]

theorem encode_batch_take_succ (M : List Message) (i : Nat) (h : i < M.length) :
    encode_batch (M.take (i + 1)) = encode_batch (M.take i) ++ (M[i]).encode := by
  rw [← List.take_concat_get' M i h, encode_batch_append]
  simp [encode_batch]

theorem full_split (M : List Message) (i : Nat) (h : i < M.length) :
    encode_batch M
      = encode_batch (M.take i) ++ ((M[i]).encode ++ encode_batch (M.drop (i + 1))) := by
  conv_lhs => rw [← List.take_append_drop (i + 1) M]
  rw [encode_batch_append, encode_batch_take_succ M i h, List.append_assoc]

/-! Generic take/drop bookkeeping lemmas. -/

theorem take_add' {α : Type} (l : List α) (m n : Nat) :
    l.take (m + n) = l.take m ++ (l.drop m).take n := by
  induction m generalizing l with
  | zero => simp
  | succ m ih =>
    cases l with
    | nil => simp
    | cons a t =>
      rw [Nat.succ_add]
      simp only [List.take_succ_cons, List.drop_succ_cons, ih]
      rfl

theorem drop_append_of_le {α : Type} (A B : List α) (s : Nat) (h : s ≤ A.length) :
    (A ++ B).drop s = A.drop s ++ B := by
  rw [List.drop_append_eq_append_drop, show s - A.length = 0 from by omega, List.drop_zero]

theorem buffer_extend {α : Type} (l : List α) (s p k : Nat) (hs : s ≤ p) (hp : p ≤ l.length) :
    (l.take p).drop s ++ (l.drop p).take k = (l.take (p + k)).drop s := by
  rw [take_add']
  rw [drop_append_of_le _ _ s (by rw [List.length_take]; omega)]

theorem take_drop_mid {α : Type} (A E R : List α) (p : Nat) (hp : A.length + E.length ≤ p) :
    ((A ++ (E ++ R)).take p).drop A.length
      = E ++ ((A ++ (E ++ R)).take p).drop (A ++ E).length := by
  have h1 : (A ++ (E ++ R)).take p = A ++ (E ++ R.take (p - A.length - E.length)) := by
    rw [List.take_append_eq_append_take, List.take_of_length_le (by omega),
      List.take_append_eq_append_take, List.take_of_length_le (by omega)]
  rw [h1]
  have h2 : (A ++ (E ++ R.take (p - A.length - E.length))).drop A.length
      = E ++ R.take (p - A.length - E.length) := List.drop_left _ _
  have h3 : (A ++ (E ++ R.take (p - A.length - E.length))).drop (A ++ E).length
      = R.take (p - A.length - E.length) := by
    rw [← List.append_assoc]
    exact List.drop_left _ _
  rw [h2, h3]

theorem take_drop_part {α : Type} (A E R : List α) (p : Nat) (h1 : A.length ≤ p)
    (h2 : p ≤ A.length + E.length) :
    ((A ++ (E ++ R)).take p).drop A.length = E.take (p - A.length) := by
  have ht : (A ++ (E ++ R)).take p = A ++ E.take (p - A.length) := by
    rw [List.take_append_eq_append_take, List.take_of_length_le h1,
      List.take_append_eq_append_take,
      show p - A.length - E.length = 0 from by omega, List.take_zero, List.append_nil]
  rw [ht, List.drop_left]

theorem full_drop_decompose (M : List Message) (i : Nat) (h : i < M.length) :
    (encode_batch M).drop (encode_batch (M.take i)).length
      = (M[i]).encode ++ (encode_batch M).drop (encode_batch (M.take (i + 1))).length := by
  conv_lhs => rw [full_split M i h]
  conv_rhs => rw [full_split M i h, encode_batch_take_succ M i h]
  rw [List.drop_left]
  rw [show encode_batch (M.take i) ++ ((M[i]).encode ++ encode_batch (M.drop (i + 1)))
      = (encode_batch (M.take i) ++ (M[i]).encode) ++ encode_batch (M.drop (i + 1)) from
    (List.append_assoc _ _ _).symm]
  rw [List.drop_left]

theorem take_drop_decompose (M : List Message) (i p : Nat) (h : i < M.length)
    (hp1 : (encode_batch (M.take (i + 1))).length ≤ p) :
    ((encode_batch M).take p).drop (encode_batch (M.take i)).length
      = (M[i]).encode ++ ((encode_batch M).take p).drop (encode_batch (M.take (i + 1))).length := by
  conv_lhs => rw [full_split M i h]
  conv_rhs => rw [full_split M i h, encode_batch_take_succ M i h]
  refine take_drop_mid _ _ _ p ?_
  rw [encode_batch_take_succ M i h, List.length_append] at hp1
  omega

theorem take_drop_incomplete (M : List Message) (i p : Nat) (h : i < M.length)
    (hp1 : (encode_batch (M.take i)).length ≤ p)
    (hp2 : p < (encode_batch (M.take (i + 1))).length) :
    ((encode_batch M).take p).drop (encode_batch (M.take i)).length
      = ((M[i]).encode).take (p - (encode_batch (M.take i)).length) := by
  conv_lhs => rw [full_split M i h]
  refine take_drop_part _ _ _ p hp1 ?_
  rw [encode_batch_take_succ M i h, List.length_append] at hp2
  omega

theorem preLen_le (M : List Message) (i : Nat) :
    (encode_batch (M.take i)).length ≤ (encode_batch M).length := by
  conv_rhs => rw [← List.take_append_drop i M]
  rw [encode_batch_append, List.length_append]
  omega

theorem drop_map_canon (M : List Message) (i : Nat) (h : i < M.length) :
    (M.drop i).map Message.canon
      = Message.canon (M[i]) :: (M.drop (i + 1)).map Message.canon := by
  rw [List.drop_eq_getElem_cons h]
  rfl

theorem runOps_empty_steps (n : Nat) :
    runOps { buffer := [] } (List.replicate n DecOp.step) = ({ buffer := [] }, []) := by
  induction n with
  | zero => rfl
  | succ n ih =>
    rw [List.replicate_succ]
    simp only [runOps, wire_decode_nil, ih]
    rfl

/-- Draining with at least `M.length - i` decode invocations after all bytes
are buffered produces the remaining records in order. -/
theorem runSteps_drain (M : List Message) (hM : ∀ m ∈ M, GoodMsg m) (n : Nat) :
    ∀ i : Nat, i ≤ M.length → M.length ≤ i + n →
      (runOps { buffer := (encode_batch M).drop (encode_batch (M.take i)).length }
          (List.replicate n DecOp.step)).2
        = (M.drop i).map Message.canon := by
  induction n with
  | zero =>
    intro i hi hn
    have hEq : i = M.length := by omega
    subst hEq
    simp [runOps, List.drop_length]
  | succ n ih =>
    intro i hi hn
    rw [List.replicate_succ]
    by_cases hlt : i < M.length
    · have hg := hM (M[i]) (List.getElem_mem hlt)
      simp only [runOps]
      rw [full_drop_decompose M i hlt]
      rw [wire_decode_complete (M[i]) _ hg.1 hg.2.1 hg.2.2.2]
      simp only [Option.toList_some]
      rw [ih (i + 1) (by omega) (by omega)]
      rw [drop_map_canon M i hlt]
      rfl
    · have hEq : i = M.length := by omega
      subst hEq
      have hbuf : (encode_batch M).drop (encode_batch (M.take M.length)).length = [] := by
        rw [List.take_length]
        exact List.drop_length _
      simp only [runOps, hbuf, wire_decode_nil, runOps_empty_steps]
      simp [List.drop_length]

/-- Main invariant run: any interleaving of pushes (jointly supplying the tail
of the encoded byte stream) and decode invocations, followed by enough decode
invocations, emits exactly the remaining records in order. -/
theorem runOps_spec (M : List Message) (hM : ∀ m ∈ M, GoodMsg m) (n : Nat) :
    ∀ (a : List DecOp) (i p : Nat) (d : WireDecoder),
      i ≤ M.length →
      (encode_batch (M.take i)).length ≤ p →
      p ≤ (encode_batch M).length →
      d.buffer = ((encode_batch M).take p).drop (encode_batch (M.take i)).length →
      pushedBytes a = (encode_batch M).drop p →
      M.length ≤ i + n →
      (runOps d (a ++ List.replicate n DecOp.step)).2 = (M.drop i).map Message.canon := by
  intro a
  induction a with
  | nil =>
    intro i p d hi hp1 hp2 hbuf hpushed hn
    have hp : p = (encode_batch M).length := by
      have hnil : (encode_batch M).drop p = [] := by
        rw [← hpushed]; rfl
      have := List.drop_eq_nil_iff.1 hnil
      omega
    subst hp
    rw [List.take_length] at hbuf
    obtain ⟨buf⟩ := d
    simp only at hbuf
    subst hbuf
    simpa using runSteps_drain M hM n i hi hn
  | cons op a ihA =>
    intro i p d hi hp1 hp2 hbuf hpushed hn
    cases op with
    | push c =>
      rw [pushedBytes_push] at hpushed
      have hclen : c.length + (pushedBytes a).length = (encode_batch M).length - p := by
        have := congrArg List.length hpushed
        simp only [List.length_append, List.length_drop] at this
        omega
      have hc : c = ((encode_batch M).drop p).take c.length := by
        rw [← hpushed, List.take_left]
      have hrest : pushedBytes a = (encode_batch M).drop (p + c.length) := by
        have h := congrArg (List.drop c.length) hpushed
        rw [List.drop_left] at h
        rw [h, List.drop_drop]
      have hbuf' : (d.push c).buffer
          = ((encode_batch M).take (p + c.length)).drop (encode_batch (M.take i)).length := by
        simp only [WireDecoder.push, hbuf]
        conv_lhs => rw [hc]
        exact buffer_extend _ _ _ _ hp1 hp2
      rw [List.cons_append]
      simp only [runOps]
      exact ihA i (p + c.length) (d.push c) hi (by omega) (by omega) hbuf' hrest hn
    | step =>
      rw [pushedBytes_step] at hpushed
      rw [List.cons_append]
      simp only [runOps]
      by_cases hfull : i < M.length ∧ (encode_batch (M.take (i + 1))).length ≤ p
      · obtain ⟨hlt, hple⟩ := hfull
        have hg := hM (M[i]) (List.getElem_mem hlt)
        obtain ⟨buf⟩ := d
        simp only at hbuf
        subst hbuf
        rw [take_drop_decompose M i p hlt hple]
        rw [wire_decode_complete (M[i]) _ hg.1 hg.2.1 hg.2.2.2]
        simp only [Option.toList_some]
        rw [ihA (i + 1) p _ (by omega) (by omega) hp2 rfl hpushed (by omega)]
        rw [drop_map_canon M i hlt]
        rfl
      · have hnoop : WireDecoder.decode d = (d, none) := by
          by_cases hlt : i < M.length
          · have hple : p < (encode_batch (M.take (i + 1))).length := by
              rcases Nat.lt_or_ge p (encode_batch (M.take (i + 1))).length with h | h
              · exact h
              · exact absurd ⟨hlt, h⟩ hfull
            obtain ⟨buf⟩ := d
            simp only at hbuf
            subst hbuf
            rw [take_drop_incomplete M i p hlt hp1 hple]
            refine wire_decode_incomplete (M[i]) _ (hM (M[i]) (List.getElem_mem hlt)).2.1
              (hM (M[i]) (List.getElem_mem hlt)).2.2.2 ?_
            have hsucc := encode_batch_take_succ M i hlt
            have hlen := congrArg List.length hsucc
            rw [List.length_append, encode_length] at hlen
            have hws : (M[i]).wire_size = 8 + (M[i]).payload.length := rfl
            omega
          · have hEq : i = M.length := by omega
            subst hEq
            have hpe : p = (encode_batch M).length := by
              have := preLen_le M M.length
              rw [List.take_length] at hp1
              omega
            subst hpe
            obtain ⟨buf⟩ := d
            simp only at hbuf
            rw [List.take_length, List.take_length, List.drop_length] at hbuf
            subst hbuf
            exact wire_decode_nil
        rw [hnoop]
        simp only [Option.toList_none, List.nil_append]
        exact ihA i p d hi hp1 hp2 hbuf hpushed (by omega)

/-- C2 (amended): for a sequence of records each with payload at most 65527
bytes, any chunking of the concatenated encodings pushed in order — with
decode invocations interleaved arbitrarily and invoked at least `M.length`
more times afterwards — yields exactly the records of `M`, in order; and a
buffer holding fewer bytes than one complete record makes decode yield the
need-more sentinel and leave the state unchanged. -/
theorem C2_streaming (M : List Message) (hM : ∀ m ∈ M, GoodMsg m)
    (a : List DecOp) (ha : pushedBytes a = encode_batch M)
    (n : Nat) (hn : M.length ≤ n) :
    (runOps WireDecoder.new (a ++ List.replicate n DecOp.step)).2 = M.map Message.canon ∧
    ∀ (m : Message) (k : Nat), m.opcode < 2 ^ 16 → m.payload.length ≤ 65527 →
      k < m.wire_size →
      WireDecoder.decode { buffer := m.encode.take k }
        = ({ buffer := m.encode.take k }, none) := by
  constructor
  · have h := runOps_spec M hM n a 0 0 WireDecoder.new (by omega) (by simp [encode_batch])
      (by omega) (by simp [WireDecoder.new, encode_batch]) (by simpa using ha) (by omega)
    simpa using h
  · intro m k hop hp hk
    exact wire_decode_incomplete m k hop hp hk

theorem C2_witness :
    (runOps WireDecoder.new
        ([DecOp.push [7, 0, 0, 0, 3], DecOp.step, DecOp.push [0, 10, 0, 1, 2]]
          ++ List.replicate 1 DecOp.step)).2
      = List.map Message.canon [Message.new 7 3 [1, 2]] :=
  (C2_streaming [Message.new 7 3 [1, 2]]
    (by
      intro m hm
      rw [List.mem_singleton] at hm
      subst hm
      exact ⟨by decide, by decide, by decide, by decide⟩)
    [DecOp.push [7, 0, 0, 0, 3], DecOp.step, DecOp.push [0, 10, 0, 1, 2]] (by decide)
    1 (by decide)).1

/-- The packed size field of a record with a 65528-byte payload wraps to 0. -/
theorem size_opcode_overflow (p : List Nat) (hp : p.length = 65528) :
    (((Message.new 0 0 p).wire_size % 2 ^ 32) <<< 16) % 2 ^ 32
      ||| (Message.new 0 0 p).opcode = 0 := by
  have hw : (Message.new 0 0 p).wire_size = 65536 := by
    show HEADER_SIZE + p.length = 65536
    rw [hp]
    rfl
  rw [hw, show (Message.new 0 0 p).opcode = 0 from rfl]
  norm_num [Nat.shiftLeft_eq]

/-- Streaming a record with a 65528-byte payload: the wrapped size field reads
as 0, the decoder clears its buffer and never yields the record. -/
theorem runOps_overflow (p : List Nat) (hp : p.length = 65528) :
    (runOps WireDecoder.new
        [DecOp.push (Message.new 0 0 p).encode, DecOp.step]).2 = [] := by
  have hso := size_opcode_overflow p hp
  have hpayl : (Message.new 0 0 p).payload = p := rfl
  have hdec : WireDecoder.decode { buffer := (Message.new 0 0 p).encode }
      = ({ buffer := [] }, none) := by
    simp only [WireDecoder.decode, encode_eq, shape_length, getD_high, hso, hpayl,
      Nat.zero_mod, Nat.zero_shiftRight, HEADER_SIZE, MAX_MESSAGE_SIZE, hp]
    rw [if_neg (by omega), if_pos (by omega)]
  have hpush : WireDecoder.new.push (Message.new 0 0 p).encode
      = { buffer := (Message.new 0 0 p).encode } := by
    simp [WireDecoder.new, WireDecoder.push]
  simp only [runOps, hpush, hdec]
  rfl

/-- C2, counterexample at the stated bound: a single record with payload
length exactly 65528, pushed as one chunk and decoded, yields no records at
all instead of the one-record sequence. -/
theorem C2_counterexample :
    (Message.new 0 0 (List.replicate 65528 0)).payload.length ≤ 65528 ∧
    (runOps WireDecoder.new
        [DecOp.push (Message.new 0 0 (List.replicate 65528 0)).encode, DecOp.step]).2 = [] :=
  ⟨by rw [show (Message.new 0 0 (List.replicate 65528 0)).payload
        = List.replicate (65528 : Nat) 0 from rfl, List.length_replicate],
   runOps_overflow _ (by rw [List.length_replicate])⟩

theorem C4_witness :
    WireDecoder.decode { buffer := [1, 0, 0, 0, 2, 0, 0, 0] } = ({ buffer := [] }, none) ∧
    ((WireDecoder.new.push [2, 0, 0, 0, 7, 0, 12, 0, 9, 9, 9, 9]).decode
        = ({ buffer := [] }, Message.decode [2, 0, 0, 0, 7, 0, 12, 0, 9, 9, 9, 9]) ∧
      (Message.decode [2, 0, 0, 0, 7, 0, 12, 0, 9, 9, 9, 9]).isSome = true) :=
  ⟨(C4_corrupt_clear { buffer := [1, 0, 0, 0, 2, 0, 0, 0] } (by decide) (by decide)).1,
   (C4_corrupt_clear { buffer := [1, 0, 0, 0, 2, 0, 0, 0] } (by decide) (by decide)).2
     [2, 0, 0, 0, 7, 0, 12, 0, 9, 9, 9, 9] (by decide) (by decide) (by decide)⟩

/-! ### Protocol engine (src/compositor.rs) -/

/-- `ObjectAllocator` from src/compositor.rs. -/
structure ObjectAllocator where
  next_id : Nat
deriving DecidableEq

/-- `ObjectAllocator::new` (1 is reserved for wl_display). -/
def ObjectAllocator.new : ObjectAllocator := { next_id := 2 }

/-- `ObjectAllocator::alloc`. -/
def ObjectAllocator.alloc (a : ObjectAllocator) : ObjectAllocator × Nat :=
  ({ next_id := a.next_id + 1 }, a.next_id)

/-- `Global` from src/compositor.rs. -/
structure Global where
  name : Nat
  interface : String
  version : Nat
deriving DecidableEq

/-- `Compositor` state from src/compositor.rs.  The `objects` HashMap is
modelled as an association list where insertion prepends and lookup takes the
first match, matching `HashMap::insert` / `get` semantics.  The stateless
`encoder: WireEncoder` unit field is omitted. -/
structure Compositor where
  globals : List Global
  objects : List (Nat × String)
  allocator : ObjectAllocator
  next_global_name : Nat
deriving DecidableEq

/-- `Compositor::register_global`. -/
def Compositor.register_global (c : Compositor) (interface : String) (version : Nat) :
    Compositor :=
  { c with
    next_global_name := c.next_global_name + 1,
    globals := c.globals ++ [{ name := c.next_global_name, interface := interface,
                               version := version }] }

/-- `Compositor::new`: object 1 is wl_display; the nine standard globals are
registered in order, receiving names 1..9. -/
def Compositor.new : Compositor :=
  ((((((((({ globals := [], objects := [(1, "wl_display")],
             allocator := ObjectAllocator.new,
             next_global_name := 1 } : Compositor).register_global "wl_compositor" 5
    ).register_global "wl_subcompositor" 1
    ).register_global "wl_shm" 1
    ).register_global "wl_output" 4
    ).register_global "wl_seat" 8
    ).register_global "wl_data_device_manager" 3
    ).register_global "xdg_wm_base" 5
    ).register_global "wp_viewporter" 1
    ).register_global "zwp_linux_dmabuf_v1" 4

/-- Zero-pad a byte buffer to a 4-byte boundary, as the source's
`while payload.len() % 4 != 0 { payload.push(0) }` loops do. -/
def padTo4 (l : List Nat) : List Nat :=
  l ++ List.replicate ((4 - l.length % 4) % 4) 0

/-- `Compositor::send_output_info`: geometry, mode, scale, done. -/
def Compositor.send_output_info (c : Compositor) (output_id : Nat) : List Message :=
  let make := strBytes "Winpipe"
  let model := strBytes "Virtual Display"
  let geometry :=
    padTo4 (padTo4 (u32ToLE 0 ++ u32ToLE 0 ++ u32ToLE 1920 ++ u32ToLE 1080 ++ u32ToLE 0 ++
        u32ToLE (make.length + 1) ++ make ++ [0]) ++
      u32ToLE (model.length + 1) ++ model ++ [0]) ++ u32ToLE 0
  let mode := u32ToLE 3 ++ u32ToLE 1920 ++ u32ToLE 1080 ++ u32ToLE 60000
  [Message.new output_id 0 geometry,
   Message.new output_id 1 mode,
   Message.new output_id 3 (u32ToLE 1),
   Message.new output_id 2 []]

/-- `Compositor::handle_message`: dispatch on (interface, opcode), returning
the updated compositor and the reply records.  The source's match arms are
modelled as a sequential if-chain over the same (interface, opcode) tests. -/
def Compositor.handle_message (c : Compositor) (msg : Message) : Compositor × List Message :=
  let interface := (List.lookup msg.object_id c.objects).getD "unknown"
  if interface = "wl_display" ∧ msg.opcode = 0 then
    if 4 ≤ msg.payload.length then
      let callback_id := leToU32 (msg.payload.getD 0 0) (msg.payload.getD 1 0)
        (msg.payload.getD 2 0) (msg.payload.getD 3 0)
      ({ c with objects := (callback_id, "wl_callback") :: c.objects },
       [Message.new callback_id 0 (u32ToLE 1)])
    else (c, [])
  else if interface = "wl_display" ∧ msg.opcode = 1 then
    if 4 ≤ msg.payload.length then
      let registry_id := leToU32 (msg.payload.getD 0 0) (msg.payload.getD 1 0)
        (msg.payload.getD 2 0) (msg.payload.getD 3 0)
      ({ c with objects := (registry_id, "wl_registry") :: c.objects },
       c.globals.map fun global =>
         Message.new registry_id 0
           (padTo4 (u32ToLE global.name ++ u32ToLE ((strBytes global.interface).length + 1) ++
               strBytes global.interface ++ [0]) ++
             u32ToLE global.version))
    else (c, [])
  else if interface = "wl_registry" ∧ msg.opcode = 0 then
    if 4 ≤ msg.payload.length then
      let name := leToU32 (msg.payload.getD 0 0) (msg.payload.getD 1 0)
        (msg.payload.getD 2 0) (msg.payload.getD 3 0)
      match c.globals.find? (fun g => g.name == name) with
      | some global =>
        if 8 ≤ msg.payload.length then
          let payload_len := msg.payload.length
          let new_id := leToU32 (msg.payload.getD (payload_len - 4) 0)
            (msg.payload.getD (payload_len - 3) 0) (msg.payload.getD (payload_len - 2) 0)
            (msg.payload.getD (payload_len - 1) 0)
          let c2 := { c with objects := (new_id, global.interface) :: c.objects }
          if global.interface = "wl_output" then (c2, c2.send_output_info new_id)
          else (c2, [])
        else (c, [])
      | none => (c, [])
    else (c, [])
  else if interface = "wl_compositor" ∧ msg.opcode = 0 then
    if 4 ≤ msg.payload.length then
      let surface_id := leToU32 (msg.payload.getD 0 0) (msg.payload.getD 1 0)
        (msg.payload.getD 2 0) (msg.payload.getD 3 0)
      ({ c with objects := (surface_id, "wl_surface") :: c.objects }, [])
    else (c, [])
  else if interface = "wl_shm" ∧ msg.opcode = 0 then
    if 8 ≤ msg.payload.length then
      let pool_id := leToU32 (msg.payload.getD 0 0) (msg.payload.getD 1 0)
        (msg.payload.getD 2 0) (msg.payload.getD 3 0)
      ({ c with objects := (pool_id, "wl_shm_pool") :: c.objects },
       [Message.new msg.object_id 0 (u32ToLE 0), Message.new msg.object_id 0 (u32ToLE 1)])
    else (c, [])
  else if interface = "xdg_wm_base" ∧ msg.opcode = 2 then
    if 8 ≤ msg.payload.length then
      let xdg_surface_id := leToU32 (msg.payload.getD 0 0) (msg.payload.getD 1 0)
        (msg.payload.getD 2 0) (msg.payload.getD 3 0)
      ({ c with objects := (xdg_surface_id, "xdg_surface") :: c.objects }, [])
    else (c, [])
  else if interface = "xdg_surface" ∧ msg.opcode = 1 then
    if 4 ≤ msg.payload.length then
      let toplevel_id := leToU32 (msg.payload.getD 0 0) (msg.payload.getD 1 0)
        (msg.payload.getD 2 0) (msg.payload.getD 3 0)
      ({ c with objects := (toplevel_id, "xdg_toplevel") :: c.objects },
       [Message.new toplevel_id 0 (u32ToLE 1920 ++ u32ToLE 1080 ++ u32ToLE 0),
        Message.new msg.object_id 0 (u32ToLE 1)])
    else (c, [])
  else if interface = "xdg_surface" ∧ msg.opcode = 4 then (c, [])
  else if interface = "wl_surface" ∧ msg.opcode = 6 then (c, [])
  else (c, [])

theorem getD_append_right' {α : Type} (A B : List α) (d : α) (j : Nat) :
    (A ++ B).getD (A.length + j) d = B.getD j d := by
  rw [List.getD_eq_getElem?_getD, List.getD_eq_getElem?_getD,
    List.getElem?_append_right (by omega)]
  rw [show A.length + j - A.length = j from by omega]

/-! ### C5: wl_display.get_registry advertises the nine globals -/

/-- The registry `global` event payload as the claim describes it: u32 name,
u32 string length including the nul, the interface bytes, a nul byte,
zero-padding to a 4-byte boundary, then u32 version.  Stated from the claim's
words, to be compared with what `handle_message` builds. -/
def packGlobalSpec (name : Nat) (interface : String) (version : Nat) : List Nat :=
  u32ToLE name ++ u32ToLE ((strBytes interface).length + 1) ++ strBytes interface ++ [0] ++
    List.replicate ((4 - ((strBytes interface).length + 9) % 4) % 4) 0 ++ u32ToLE version

/-- C5: from a fresh engine, `wl_display.get_registry(new_id=R)` binds `R` to
wl_registry and returns exactly nine records, all on object `R` with opcode 0,
advertising the globals in order with names 1..9 and versions 5,1,1,4,8,3,5,1,4,
each packed as the claim describes. -/
theorem C5_get_registry (R : Nat) (hR : R < 2 ^ 32) :
    List.lookup R (Compositor.new.handle_message (Message.new 1 1 (u32ToLE R))).1.objects
        = some "wl_registry" ∧
    (Compositor.new.handle_message (Message.new 1 1 (u32ToLE R))).2 =
      [Message.new R 0 (packGlobalSpec 1 "wl_compositor" 5),
       Message.new R 0 (packGlobalSpec 2 "wl_subcompositor" 1),
       Message.new R 0 (packGlobalSpec 3 "wl_shm" 1),
       Message.new R 0 (packGlobalSpec 4 "wl_output" 4),
       Message.new R 0 (packGlobalSpec 5 "wl_seat" 8),
       Message.new R 0 (packGlobalSpec 6 "wl_data_device_manager" 3),
       Message.new R 0 (packGlobalSpec 7 "xdg_wm_base" 5),
       Message.new R 0 (packGlobalSpec 8 "wp_viewporter" 1),
       Message.new R 0 (packGlobalSpec 9 "zwp_linux_dmabuf_v1" 4)] := by
  have hobj : (Message.new 1 1 (u32ToLE R)).object_id = 1 := rfl
  have hopc : (Message.new 1 1 (u32ToLE R)).opcode = 1 := rfl
  have hpl : (Message.new 1 1 (u32ToLE R)).payload = u32ToLE R := rfl
  have hlook : List.lookup 1 Compositor.new.objects = some "wl_display" := rfl
  have hrid : leToU32 ((u32ToLE R).getD 0 0) ((u32ToLE R).getD 1 0) ((u32ToLE R).getD 2 0)
      ((u32ToLE R).getD 3 0) = R := by
    show leToU32 (R % 256) (R / 256 % 256) (R / 256 ^ 2 % 256) (R / 256 ^ 3 % 256) = R
    rw [bytes_roundtrip]
    exact Nat.mod_eq_of_lt hR
  simp only [Compositor.handle_message, hobj, hopc, hpl, hlook, Option.getD_some]
  rw [if_neg (by decide), if_pos (by decide), if_pos (by simp [u32ToLE]), hrid]
  constructor
  · simp
  · rfl

theorem C5_witness :
    List.lookup 2 (Compositor.new.handle_message (Message.new 1 1 (u32ToLE 2))).1.objects
        = some "wl_registry" ∧
    (Compositor.new.handle_message (Message.new 1 1 (u32ToLE 2))).2 =
      [Message.new 2 0 (packGlobalSpec 1 "wl_compositor" 5),
       Message.new 2 0 (packGlobalSpec 2 "wl_subcompositor" 1),
       Message.new 2 0 (packGlobalSpec 3 "wl_shm" 1),
       Message.new 2 0 (packGlobalSpec 4 "wl_output" 4),
       Message.new 2 0 (packGlobalSpec 5 "wl_seat" 8),
       Message.new 2 0 (packGlobalSpec 6 "wl_data_device_manager" 3),
       Message.new 2 0 (packGlobalSpec 7 "xdg_wm_base" 5),
       Message.new 2 0 (packGlobalSpec 8 "wp_viewporter" 1),
       Message.new 2 0 (packGlobalSpec 9 "zwp_linux_dmabuf_v1" 4)] :=
  C5_get_registry 2 (by decide)

/-! ### C6: binding wl_output emits geometry, mode, scale, done -/

/-- The claim's string packing rule: u32 length including the nul, the raw
bytes, a nul byte, zero-padding to a 4-byte boundary. -/
def stringPackSpec (s : String) : List Nat :=
  u32ToLE ((strBytes s).length + 1) ++ strBytes s ++ [0] ++
    List.replicate ((4 - ((strBytes s).length + 1) % 4) % 4) 0

/-- The wl_output.geometry payload as the claim states it. -/
def geometrySpec : List Nat :=
  u32ToLE 0 ++ u32ToLE 0 ++ u32ToLE 1920 ++ u32ToLE 1080 ++ u32ToLE 0 ++
    stringPackSpec "Winpipe" ++ stringPackSpec "Virtual Display" ++ u32ToLE 0

/-- C6: in an engine whose registry object is bound and whose globals are the
standard ones, a `wl_registry.bind` whose first four payload bytes encode the
wl_output global's name (4) and whose last four bytes carry the new id binds
that id to wl_output and returns exactly the four records with opcodes
0, 1, 3, 2 and the bit-exact payloads of the claim. -/
theorem C6_bind_output (c : Compositor) (Reg : Nat) (mid : List Nat) (x0 x1 x2 x3 : Nat)
    (hre : List.lookup Reg c.objects = some "wl_registry")
    (hg : c.globals = Compositor.new.globals) :
    c.handle_message (Message.new Reg 0 ([4, 0, 0, 0] ++ (mid ++ [x0, x1, x2, x3])))
      = ({ c with objects := (leToU32 x0 x1 x2 x3, "wl_output") :: c.objects },
         [Message.new (leToU32 x0 x1 x2 x3) 0 geometrySpec,
          Message.new (leToU32 x0 x1 x2 x3) 1
            (u32ToLE 3 ++ u32ToLE 1920 ++ u32ToLE 1080 ++ u32ToLE 60000),
          Message.new (leToU32 x0 x1 x2 x3) 3 (u32ToLE 1),
          Message.new (leToU32 x0 x1 x2 x3) 2 []]) := by
  have hobj : (Message.new Reg 0 ([4, 0, 0, 0] ++ (mid ++ [x0, x1, x2, x3]))).object_id
      = Reg := rfl
  have hopc : (Message.new Reg 0 ([4, 0, 0, 0] ++ (mid ++ [x0, x1, x2, x3]))).opcode = 0 := rfl
  have hpl : (Message.new Reg 0 ([4, 0, 0, 0] ++ (mid ++ [x0, x1, x2, x3]))).payload
      = [4, 0, 0, 0] ++ (mid ++ [x0, x1, x2, x3]) := rfl
  have hname : leToU32 (([4, 0, 0, 0] ++ (mid ++ [x0, x1, x2, x3])).getD 0 0)
      (([4, 0, 0, 0] ++ (mid ++ [x0, x1, x2, x3])).getD 1 0)
      (([4, 0, 0, 0] ++ (mid ++ [x0, x1, x2, x3])).getD 2 0)
      (([4, 0, 0, 0] ++ (mid ++ [x0, x1, x2, x3])).getD 3 0) = 4 := rfl
  have hfind : Compositor.new.globals.find? (fun g => g.name == 4)
      = some { name := 4, interface := "wl_output", version := 4 } := rfl
  have hA : [4, 0, 0, 0] ++ (mid ++ [x0, x1, x2, x3])
      = ([4, 0, 0, 0] ++ mid) ++ [x0, x1, x2, x3] := (List.append_assoc _ _ _).symm
  have hlen : (([4, 0, 0, 0] ++ mid) ++ [x0, x1, x2, x3]).length
      = ([4, 0, 0, 0] ++ mid).length + 4 := by
    rw [List.length_append]
    rfl
  have hAlen : ([4, 0, 0, 0] ++ mid).length = mid.length + 4 := by
    simp
  have e0 : ([4, 0, 0, 0] ++ mid).length + 4 - 4 = ([4, 0, 0, 0] ++ mid).length + 0 := by
    omega
  have e1 : ([4, 0, 0, 0] ++ mid).length + 4 - 3 = ([4, 0, 0, 0] ++ mid).length + 1 := by
    omega
  have e2 : ([4, 0, 0, 0] ++ mid).length + 4 - 2 = ([4, 0, 0, 0] ++ mid).length + 2 := by
    omega
  have e3 : ([4, 0, 0, 0] ++ mid).length + 4 - 1 = ([4, 0, 0, 0] ++ mid).length + 3 := by
    omega
  have h0 : (([4, 0, 0, 0] ++ mid) ++ [x0, x1, x2, x3]).getD
      ((([4, 0, 0, 0] ++ mid) ++ [x0, x1, x2, x3]).length - 4) 0 = x0 := by
    rw [hlen, e0, getD_append_right']
    rfl
  have h1 : (([4, 0, 0, 0] ++ mid) ++ [x0, x1, x2, x3]).getD
      ((([4, 0, 0, 0] ++ mid) ++ [x0, x1, x2, x3]).length - 3) 0 = x1 := by
    rw [hlen, e1, getD_append_right']
    rfl
  have h2 : (([4, 0, 0, 0] ++ mid) ++ [x0, x1, x2, x3]).getD
      ((([4, 0, 0, 0] ++ mid) ++ [x0, x1, x2, x3]).length - 2) 0 = x2 := by
    rw [hlen, e2, getD_append_right']
    rfl
  have h3 : (([4, 0, 0, 0] ++ mid) ++ [x0, x1, x2, x3]).getD
      ((([4, 0, 0, 0] ++ mid) ++ [x0, x1, x2, x3]).length - 1) 0 = x3 := by
    rw [hlen, e3, getD_append_right']
    rfl
  simp only [Compositor.handle_message, hobj, hopc, hpl, hre, Option.getD_some, hname, hg,
    hfind]
  rw [if_neg (by decide), if_neg (by decide), if_pos (by decide),
    if_pos (by simp)]
  simp only [hA, h0, h1, h2, h3]
  rw [if_pos (by rw [hlen, hAlen]; omega), if_pos (by decide)]
  rfl

theorem C6_witness :
    Compositor.handle_message
        { globals := Compositor.new.globals, objects := [(2, "wl_registry"), (1, "wl_display")],
          allocator := ObjectAllocator.new, next_global_name := 10 }
        (Message.new 2 0 ([4, 0, 0, 0] ++ ([9, 0, 0, 0] ++ [10, 0, 0, 0])))
      = ({ globals := Compositor.new.globals,
           objects := [(10, "wl_output"), (2, "wl_registry"), (1, "wl_display")],
           allocator := ObjectAllocator.new, next_global_name := 10 },
         [Message.new 10 0 geometrySpec,
          Message.new 10 1 (u32ToLE 3 ++ u32ToLE 1920 ++ u32ToLE 1080 ++ u32ToLE 60000),
          Message.new 10 3 (u32ToLE 1),
          Message.new 10 2 []]) :=
  C6_bind_output _ 2 [9, 0, 0, 0] 10 0 0 0 (by decide) (by decide)

/-! ### C7: get_toplevel emits toplevel-configure then xdg_surface-configure -/

/-- C7: with `X` bound to xdg_surface, `get_toplevel` with new id `T` in the
first four payload bytes binds `T` to xdg_toplevel and returns exactly two
records in this order: the toplevel configure (1920, 1080, empty states) on
`T`, then the xdg_surface configure (serial 1) on `X`. -/
theorem C7_get_toplevel (c : Compositor) (X : Nat) (t0 t1 t2 t3 : Nat) (rest : List Nat)
    (hre : List.lookup X c.objects = some "xdg_surface") :
    c.handle_message (Message.new X 1 (t0 :: t1 :: t2 :: t3 :: rest))
      = ({ c with objects := (leToU32 t0 t1 t2 t3, "xdg_toplevel") :: c.objects },
         [Message.new (leToU32 t0 t1 t2 t3) 0 (u32ToLE 1920 ++ u32ToLE 1080 ++ u32ToLE 0),
          Message.new X 0 (u32ToLE 1)]) := by
  have hobj : (Message.new X 1 (t0 :: t1 :: t2 :: t3 :: rest)).object_id = X := rfl
  have hopc : (Message.new X 1 (t0 :: t1 :: t2 :: t3 :: rest)).opcode = 1 := rfl
  have hpl : (Message.new X 1 (t0 :: t1 :: t2 :: t3 :: rest)).payload
      = t0 :: t1 :: t2 :: t3 :: rest := rfl
  simp only [Compositor.handle_message, hobj, hopc, hpl, hre, Option.getD_some]
  rw [if_neg (by decide), if_neg (by decide), if_neg (by decide), if_neg (by decide),
    if_neg (by decide), if_neg (by decide), if_pos (by decide),
    if_pos (by simp)]
  rfl

theorem C7_witness :
    Compositor.handle_message
        { globals := Compositor.new.globals, objects := [(30, "xdg_surface")],
          allocator := ObjectAllocator.new, next_global_name := 10 }
        (Message.new 30 1 (40 :: 0 :: 0 :: 0 :: []))
      = ({ globals := Compositor.new.globals,
           objects := [(40, "xdg_toplevel"), (30, "xdg_surface")],
           allocator := ObjectAllocator.new, next_global_name := 10 },
         [Message.new 40 0 (u32ToLE 1920 ++ u32ToLE 1080 ++ u32ToLE 0),
          Message.new 30 0 (u32ToLE 1)]) :=
  C7_get_toplevel _ 30 40 0 0 0 [] (by decide)

/-! ### C8: wl_shm.create_pool -/

/-- C8 (amended): a create_pool request on a wl_shm object whose payload is at
least 8 bytes long, with the pool id in bytes 0..4, binds the pool id to
wl_shm_pool and returns exactly two format records on the receiving wl_shm
object with payloads u32(0) and u32(1), in that order. -/
theorem C8_create_pool (c : Compositor) (S : Nat) (p0 p1 p2 p3 : Nat) (rest : List Nat)
    (hre : List.lookup S c.objects = some "wl_shm") (hlen : 4 ≤ rest.length) :
    c.handle_message (Message.new S 0 (p0 :: p1 :: p2 :: p3 :: rest))
      = ({ c with objects := (leToU32 p0 p1 p2 p3, "wl_shm_pool") :: c.objects },
         [Message.new S 0 (u32ToLE 0), Message.new S 0 (u32ToLE 1)]) := by
  have hobj : (Message.new S 0 (p0 :: p1 :: p2 :: p3 :: rest)).object_id = S := rfl
  have hopc : (Message.new S 0 (p0 :: p1 :: p2 :: p3 :: rest)).opcode = 0 := rfl
  have hpl : (Message.new S 0 (p0 :: p1 :: p2 :: p3 :: rest)).payload
      = p0 :: p1 :: p2 :: p3 :: rest := rfl
  simp only [Compositor.handle_message, hobj, hopc, hpl, hre, Option.getD_some]
  rw [if_neg (by decide), if_neg (by decide), if_neg (by decide), if_neg (by decide),
    if_pos (by decide), if_pos (by simp; omega)]
  rfl

theorem C8_witness :
    Compositor.handle_message
        { globals := Compositor.new.globals, objects := [(3, "wl_shm")],
          allocator := ObjectAllocator.new, next_global_name := 10 }
        (Message.new 3 0 (5 :: 0 :: 0 :: 0 :: [0, 16, 0, 0]))
      = ({ globals := Compositor.new.globals,
           objects := [(5, "wl_shm_pool"), (3, "wl_shm")],
           allocator := ObjectAllocator.new, next_global_name := 10 },
         [Message.new 3 0 (u32ToLE 0), Message.new 3 0 (u32ToLE 1)]) :=
  C8_create_pool _ 3 5 0 0 0 [0, 16, 0, 0] (by decide) (by decide)

/-- C8, counterexample at the stated minimum: a create_pool request carrying a
pool id in bytes 0..4 with payload length exactly 4 is silently ignored — no
object is bound and no format records are returned. -/
theorem C8_counterexample :
    Compositor.handle_message
        { globals := Compositor.new.globals, objects := [(3, "wl_shm")],
          allocator := ObjectAllocator.new, next_global_name := 10 }
        (Message.new 3 0 (u32ToLE 5))
      = ({ globals := Compositor.new.globals, objects := [(3, "wl_shm")],
           allocator := ObjectAllocator.new, next_global_name := 10 }, []) ∧
    (u32ToLE 5).length = 4 := by
  constructor
  · decide
  · decide

/-! ### C10: short payloads are ignored without touching the object table -/

theorem handle_message_short4 (c : Compositor) (msg : Message)
    (h : msg.payload.length < 4) : c.handle_message msg = (c, []) := by
  simp only [Compositor.handle_message]
  split_ifs <;> first | rfl | omega

/-- C10: a request whose payload is shorter than its handler's minimum — 4
bytes for any handler, 8 bytes for wl_registry.bind's new-id extraction,
wl_shm.create_pool and xdg_wm_base.get_xdg_surface — produces no replies and
leaves the engine (in particular its object table) unchanged. -/
theorem C10_short_payloads (c : Compositor) (msg : Message) :
    (msg.payload.length < 4 → c.handle_message msg = (c, [])) ∧
    (msg.payload.length < 8 →
      (((List.lookup msg.object_id c.objects).getD "unknown" = "wl_registry" ∧ msg.opcode = 0) ∨
       ((List.lookup msg.object_id c.objects).getD "unknown" = "wl_shm" ∧ msg.opcode = 0) ∨
       ((List.lookup msg.object_id c.objects).getD "unknown" = "xdg_wm_base" ∧ msg.opcode = 2)) →
      c.handle_message msg = (c, [])) := by
  constructor
  · exact handle_message_short4 c msg
  · intro hlen hcase
    rcases hcase with ⟨hif, hop⟩ | ⟨hif, hop⟩ | ⟨hif, hop⟩
    · by_cases h4 : 4 ≤ msg.payload.length
      · simp only [Compositor.handle_message, hif, hop]
        rw [if_neg (by decide), if_neg (by decide), if_pos (by decide), if_pos h4]
        cases hfind : c.globals.find? (fun g => g.name == leToU32 (msg.payload.getD 0 0)
            (msg.payload.getD 1 0) (msg.payload.getD 2 0) (msg.payload.getD 3 0)) with
        | none => simp only [hfind]
        | some g =>
          simp only [hfind]
          rw [if_neg (by omega)]
      · simp only [Compositor.handle_message, hif, hop]
        rw [if_neg (by decide), if_neg (by decide), if_pos (by decide), if_neg h4]
    · simp only [Compositor.handle_message, hif, hop]
      rw [if_neg (by decide), if_neg (by decide), if_neg (by decide), if_neg (by decide),
        if_pos (by decide), if_neg (by omega)]
    · simp only [Compositor.handle_message, hif, hop]
      rw [if_neg (by decide), if_neg (by decide), if_neg (by decide), if_neg (by decide),
        if_neg (by decide), if_pos (by decide), if_neg (by omega)]

theorem C10_witness :
    Compositor.new.handle_message (Message.new 1 0 []) = (Compositor.new, []) :=
  (C10_short_payloads Compositor.new (Message.new 1 0 [])).1 (by decide)

/-! ### Pixel forwarder (src/render.rs) -/

namespace Render

/-- `FRAME_MAGIC`: the ASCII bytes of "WPRD". -/
def FRAME_MAGIC : List Nat := [87, 80, 82, 68]

/-- The pixel-frame `HEADER_SIZE` from src/render.rs. -/
def HEADER_SIZE : Nat := 20

/-- `PixelFormat` from src/render.rs. -/
inductive PixelFormat where
  | ARGB8888
  | XRGB8888
deriving DecidableEq

/-- The `as u32` value of a pixel format. -/
def PixelFormat.val : PixelFormat → Nat
  | PixelFormat.ARGB8888 => 0
  | PixelFormat.XRGB8888 => 1

/-- `RenderFrame` from src/render.rs. -/
structure RenderFrame where
  width : Nat
  height : Nat
  format : PixelFormat
  data : List Nat
deriving DecidableEq

/-- `RenderFrame::encode`: magic, width, height, format, data length
(`as u32`, hence `% 2 ^ 32`), then the pixel data. -/
def RenderFrame.encode (f : RenderFrame) : List Nat :=
  FRAME_MAGIC ++ u32ToLE f.width ++ u32ToLE f.height ++ u32ToLE f.format.val ++
    u32ToLE (f.data.length % 2 ^ 32) ++ f.data

/-- `RenderFrame::decode`. -/
def RenderFrame.decode (data : List Nat) : Option RenderFrame :=
  if data.length < HEADER_SIZE then none
  else if data.take 4 ≠ FRAME_MAGIC then none
  else
    let width := leToU32 (data.getD 4 0) (data.getD 5 0) (data.getD 6 0) (data.getD 7 0)
    let height := leToU32 (data.getD 8 0) (data.getD 9 0) (data.getD 10 0) (data.getD 11 0)
    let format_val := leToU32 (data.getD 12 0) (data.getD 13 0) (data.getD 14 0)
      (data.getD 15 0)
    let data_size := leToU32 (data.getD 16 0) (data.getD 17 0) (data.getD 18 0)
      (data.getD 19 0)
    let format := match format_val with
      | 0 => PixelFormat.ARGB8888
      | 1 => PixelFormat.XRGB8888
      | _ => PixelFormat.ARGB8888
    if data.length < HEADER_SIZE + data_size then none
    else some { width := width, height := height, format := format,
                data := (data.drop HEADER_SIZE).take data_size }

/-- `FrameDecoder` from src/render.rs: the streaming frame decoder state. -/
structure FrameDecoder where
  buffer : List Nat
deriving DecidableEq

/-- `FrameDecoder::new`. -/
def FrameDecoder.new : FrameDecoder := { buffer := [] }

/-- `FrameDecoder::push`. -/
def FrameDecoder.push (d : FrameDecoder) (data : List Nat) : FrameDecoder :=
  { buffer := d.buffer ++ data }

/-- `FrameDecoder::find_magic`: position of the first 4-byte window equal to
the magic (the `windows(4).position` search). -/
def find_magic : List Nat → Option Nat
  | [] => none
  | b :: rest =>
    if (b :: rest).take 4 = FRAME_MAGIC then some 0
    else (find_magic rest).map (· + 1)

/-- `FrameDecoder::decode`: returns the updated decoder state together with
the `Option<RenderFrame>` result of one invocation. -/
def FrameDecoder.decode (d : FrameDecoder) : FrameDecoder × Option RenderFrame :=
  if d.buffer.length < HEADER_SIZE then (d, none)
  else if d.buffer.take 4 ≠ FRAME_MAGIC then
    match find_magic d.buffer with
    | some pos => ({ buffer := d.buffer.drop pos }, none)
    | none => ({ buffer := [] }, none)
  else
    let data_size := leToU32 (d.buffer.getD 16 0) (d.buffer.getD 17 0) (d.buffer.getD 18 0)
      (d.buffer.getD 19 0)
    let total_size := HEADER_SIZE + data_size
    if d.buffer.length < total_size then (d, none)
    else
      match RenderFrame.decode (d.buffer.take total_size) with
      | some frame => ({ buffer := d.buffer.drop total_size }, some frame)
      | none => ({ buffer := d.buffer.drop 4 }, none)

/-- Repeated decode invocations, collecting the returned frames in order. -/
def decodeFrames : Nat → FrameDecoder → FrameDecoder × List RenderFrame
  | 0, d => (d, [])
  | n + 1, d =>
    let p := d.decode
    let r := decodeFrames n p.1
    (r.1, p.2.toList ++ r.2)

/-! Header-byte extraction on the encoded-frame shape. -/

theorem rshape_w (w h v s : Nat) (q : List Nat) :
    leToU32 ((FRAME_MAGIC ++ u32ToLE w ++ u32ToLE h ++ u32ToLE v ++ u32ToLE s ++ q).getD 4 0)
      ((FRAME_MAGIC ++ u32ToLE w ++ u32ToLE h ++ u32ToLE v ++ u32ToLE s ++ q).getD 5 0)
      ((FRAME_MAGIC ++ u32ToLE w ++ u32ToLE h ++ u32ToLE v ++ u32ToLE s ++ q).getD 6 0)
      ((FRAME_MAGIC ++ u32ToLE w ++ u32ToLE h ++ u32ToLE v ++ u32ToLE s ++ q).getD 7 0)
      = w % 2 ^ 32 := by
  show leToU32 (w % 256) (w / 256 % 256) (w / 256 ^ 2 % 256) (w / 256 ^ 3 % 256) = w % 2 ^ 32
  exact bytes_roundtrip w

theorem rshape_h (w h v s : Nat) (q : List Nat) :
    leToU32 ((FRAME_MAGIC ++ u32ToLE w ++ u32ToLE h ++ u32ToLE v ++ u32ToLE s ++ q).getD 8 0)
      ((FRAME_MAGIC ++ u32ToLE w ++ u32ToLE h ++ u32ToLE v ++ u32ToLE s ++ q).getD 9 0)
      ((FRAME_MAGIC ++ u32ToLE w ++ u32ToLE h ++ u32ToLE v ++ u32ToLE s ++ q).getD 10 0)
      ((FRAME_MAGIC ++ u32ToLE w ++ u32ToLE h ++ u32ToLE v ++ u32ToLE s ++ q).getD 11 0)
      = h % 2 ^ 32 := by
  show leToU32 (h % 256) (h / 256 % 256) (h / 256 ^ 2 % 256) (h / 256 ^ 3 % 256) = h % 2 ^ 32
  exact bytes_roundtrip h

theorem rshape_v (w h v s : Nat) (q : List Nat) :
    leToU32 ((FRAME_MAGIC ++ u32ToLE w ++ u32ToLE h ++ u32ToLE v ++ u32ToLE s ++ q).getD 12 0)
      ((FRAME_MAGIC ++ u32ToLE w ++ u32ToLE h ++ u32ToLE v ++ u32ToLE s ++ q).getD 13 0)
      ((FRAME_MAGIC ++ u32ToLE w ++ u32ToLE h ++ u32ToLE v ++ u32ToLE s ++ q).getD 14 0)
      ((FRAME_MAGIC ++ u32ToLE w ++ u32ToLE h ++ u32ToLE v ++ u32ToLE s ++ q).getD 15 0)
      = v % 2 ^ 32 := by
  show leToU32 (v % 256) (v / 256 % 256) (v / 256 ^ 2 % 256) (v / 256 ^ 3 % 256) = v % 2 ^ 32
  exact bytes_roundtrip v

theorem rshape_s (w h v s : Nat) (q : List Nat) :
    leToU32 ((FRAME_MAGIC ++ u32ToLE w ++ u32ToLE h ++ u32ToLE v ++ u32ToLE s ++ q).getD 16 0)
      ((FRAME_MAGIC ++ u32ToLE w ++ u32ToLE h ++ u32ToLE v ++ u32ToLE s ++ q).getD 17 0)
      ((FRAME_MAGIC ++ u32ToLE w ++ u32ToLE h ++ u32ToLE v ++ u32ToLE s ++ q).getD 18 0)
      ((FRAME_MAGIC ++ u32ToLE w ++ u32ToLE h ++ u32ToLE v ++ u32ToLE s ++ q).getD 19 0)
      = s % 2 ^ 32 := by
  show leToU32 (s % 256) (s / 256 % 256) (s / 256 ^ 2 % 256) (s / 256 ^ 3 % 256) = s % 2 ^ 32
  exact bytes_roundtrip s

theorem rshape_take4 (w h v s : Nat) (q : List Nat) :
    (FRAME_MAGIC ++ u32ToLE w ++ u32ToLE h ++ u32ToLE v ++ u32ToLE s ++ q).take 4
      = FRAME_MAGIC := rfl

theorem rshape_drop20 (w h v s : Nat) (q : List Nat) :
    (FRAME_MAGIC ++ u32ToLE w ++ u32ToLE h ++ u32ToLE v ++ u32ToLE s ++ q).drop 20 = q := rfl

theorem rshape_length (w h v s : Nat) (q : List Nat) :
    (FRAME_MAGIC ++ u32ToLE w ++ u32ToLE h ++ u32ToLE v ++ u32ToLE s ++ q).length
      = q.length + 20 := by
  simp [FRAME_MAGIC, u32ToLE]

theorem rencode_eq (f : RenderFrame) :
    f.encode = FRAME_MAGIC ++ u32ToLE f.width ++ u32ToLE f.height ++ u32ToLE f.format.val ++
      u32ToLE (f.data.length % 2 ^ 32) ++ f.data := rfl

theorem rencode_length (f : RenderFrame) : f.encode.length = f.data.length + 20 := by
  rw [rencode_eq]
  exact rshape_length _ _ _ _ _

/-- Decoding an encoded frame recovers it exactly. -/
theorem frame_decode_encode (f : RenderFrame) (hw : f.width < 2 ^ 32)
    (hh : f.height < 2 ^ 32) (hd : f.data.length < 2 ^ 32) :
    RenderFrame.decode f.encode = some f := by
  have hfv : f.format.val % 2 ^ 32 = f.format.val := by
    cases f.format <;> rfl
  have hmatch : (match f.format.val with
      | 0 => PixelFormat.ARGB8888
      | 1 => PixelFormat.XRGB8888
      | _ => PixelFormat.ARGB8888) = f.format := by
    cases f.format <;> rfl
  have hds : f.data.length % 2 ^ 32 % 2 ^ 32 = f.data.length := by
    rw [Nat.mod_eq_of_lt hd, Nat.mod_eq_of_lt hd]
  simp only [RenderFrame.decode, rencode_eq, rshape_length, rshape_take4, rshape_w, rshape_h,
    rshape_v, rshape_s, rshape_drop20, hfv, hds, hmatch, Nat.mod_eq_of_lt hw,
    Nat.mod_eq_of_lt hh, HEADER_SIZE]
  rw [if_neg (by omega), if_neg (by simp), if_neg (by omega), List.take_length]

/-- One streaming decode on a buffer holding exactly one encoded frame
consumes it and returns the frame. -/
theorem frame_decoder_complete (f : RenderFrame) (hw : f.width < 2 ^ 32)
    (hh : f.height < 2 ^ 32) (hd : f.data.length < 2 ^ 32) :
    FrameDecoder.decode { buffer := f.encode } = ({ buffer := [] }, some f) := by
  have hds : f.data.length % 2 ^ 32 % 2 ^ 32 = f.data.length := by
    rw [Nat.mod_eq_of_lt hd, Nat.mod_eq_of_lt hd]
  simp only [FrameDecoder.decode, rencode_eq, rshape_length, rshape_take4, rshape_s, hds,
    HEADER_SIZE]
  rw [if_neg (by omega), if_neg (by simp), if_neg (by omega)]
  rw [show (20 : Nat) + f.data.length = f.data.length + 20 from by omega]
  rw [← rshape_length f.width f.height f.format.val (f.data.length % 2 ^ 32) f.data,
    List.take_length, List.drop_length]
  rw [← rencode_eq, frame_decode_encode f hw hh hd]

theorem frame_decode_nil :
    FrameDecoder.decode { buffer := [] } = ({ buffer := [] }, none) := rfl

theorem decodeFrames_empty (n : Nat) :
    decodeFrames n { buffer := [] } = ({ buffer := [] }, []) := by
  induction n with
  | zero => rfl
  | succ n ih =>
    simp only [decodeFrames, frame_decode_nil, ih]
    rfl

/-- If the first four buffered bytes of `g` followed by a magic-led tail are
read as a window, they cannot be the magic when `g` is nonempty and contains
no magic. -/
theorem take4_ne_magic (g r : List Nat) (hg : g ≠ []) (hfm : find_magic g = none) :
    ¬(g ++ (87 :: 80 :: 82 :: 68 :: r)).take 4 = FRAME_MAGIC := by
  rcases g with _ | ⟨a, _ | ⟨b, _ | ⟨c, _ | ⟨dd, t⟩⟩⟩⟩
  · exact absurd rfl hg
  · intro h
    simp [FRAME_MAGIC] at h
  · intro h
    simp [FRAME_MAGIC] at h
  · intro h
    simp [FRAME_MAGIC] at h
  · intro h
    have h' : (a :: b :: c :: dd :: t).take 4 = FRAME_MAGIC := h
    unfold find_magic at hfm
    rw [if_pos h'] at hfm
    exact Option.noConfusion hfm

/-- Appending a magic-led tail to a magic-free buffer puts the first magic
occurrence exactly at the boundary. -/
theorem find_magic_append (g r : List Nat) (hfm : find_magic g = none) :
    find_magic (g ++ (87 :: 80 :: 82 :: 68 :: r)) = some g.length := by
  induction g with
  | nil => rfl
  | cons b g ih =>
    have hfm' : find_magic g = none := by
      by_cases hc : (b :: g).take 4 = FRAME_MAGIC
      · unfold find_magic at hfm
        rw [if_pos hc] at hfm
        exact Option.noConfusion hfm
      · unfold find_magic at hfm
        rw [if_neg hc] at hfm
        cases hmap : find_magic g with
        | none => rfl
        | some v =>
          rw [hmap] at hfm
          simp at hfm
    have hcond : ¬(b :: (g ++ (87 :: 80 :: 82 :: 68 :: r))).take 4 = FRAME_MAGIC := by
      have := take4_ne_magic (b :: g) r (by simp) hfm
      rwa [List.cons_append] at this
    rw [List.cons_append]
    unfold find_magic
    rw [if_neg hcond, ih hfm']
    rfl

/-- One streaming decode on garbage (magic-free, nonempty) followed by an
encoded frame resynchronizes: it discards the garbage and reports no frame. -/
theorem frame_decoder_resync (g : List Nat) (f : RenderFrame) (hg : g ≠ [])
    (hfm : find_magic g = none) :
    FrameDecoder.decode { buffer := g ++ f.encode } = ({ buffer := f.encode }, none) := by
  have hencode : f.encode = 87 :: 80 :: 82 :: 68 ::
      (u32ToLE f.width ++ u32ToLE f.height ++ u32ToLE f.format.val ++
        u32ToLE (f.data.length % 2 ^ 32) ++ f.data) := rfl
  have hlen : (g ++ f.encode).length = g.length + (f.data.length + 20) := by
    rw [List.length_append, rencode_length]
  have hfm2 : find_magic (g ++ f.encode) = some g.length :=
    find_magic_append g _ hfm
  have hcond : ¬(g ++ f.encode).take 4 = FRAME_MAGIC :=
    take4_ne_magic g _ hg hfm
  simp only [FrameDecoder.decode, HEADER_SIZE]
  rw [if_neg (by omega), if_pos hcond, hfm2]
  show (({ buffer := (g ++ f.encode).drop g.length } : FrameDecoder),
      (none : Option RenderFrame)) = ({ buffer := f.encode }, none)
  rw [List.drop_left]

/-- C9 (amended): decode of encode recovers any valid frame; and pushing
magic-free garbage followed by an encoded frame into a fresh streaming frame
decoder and invoking decode repeatedly (at least twice) yields exactly that
frame, bitwise equal. -/
theorem C9_frames (f : RenderFrame) (hw : f.width < 2 ^ 32) (hh : f.height < 2 ^ 32)
    (hd : f.data.length < 2 ^ 32) :
    RenderFrame.decode f.encode = some f ∧
    ∀ (g : List Nat) (n : Nat), find_magic g = none → 2 ≤ n →
      (decodeFrames n (FrameDecoder.new.push (g ++ f.encode))).2 = [f] := by
  refine ⟨frame_decode_encode f hw hh hd, ?_⟩
  intro g n hfm hn
  obtain ⟨k, rfl⟩ : ∃ k, n = k + 2 := ⟨n - 2, by omega⟩
  have hpush : FrameDecoder.new.push (g ++ f.encode) = { buffer := g ++ f.encode } := by
    simp [FrameDecoder.new, FrameDecoder.push]
  rw [hpush]
  by_cases hg : g = []
  · subst hg
    rw [List.nil_append]
    rw [show k + 2 = k + 1 + 1 from rfl]
    simp only [decodeFrames, frame_decoder_complete f hw hh hd, frame_decode_nil,
      decodeFrames_empty, Option.toList_some, Option.toList_none]
    rfl
  · rw [show k + 2 = k + 1 + 1 from rfl]
    simp only [decodeFrames, frame_decoder_resync g f hg hfm,
      frame_decoder_complete f hw hh hd, frame_decode_nil, decodeFrames_empty,
      Option.toList_some, Option.toList_none]
    rfl

theorem C9_witness :
    (decodeFrames 2 (FrameDecoder.new.push ([222, 173, 190, 239] ++
        (RenderFrame.mk 1 1 PixelFormat.XRGB8888 [9, 9, 9, 9]).encode))).2
      = [RenderFrame.mk 1 1 PixelFormat.XRGB8888 [9, 9, 9, 9]] :=
  (C9_frames (RenderFrame.mk 1 1 PixelFormat.XRGB8888 [9, 9, 9, 9]) (by decide) (by decide)
    (by decide)).2 [222, 173, 190, 239] 2 (by decide) (by decide)

/-- C9, counterexample to the unrestricted garbage clause: garbage that itself
starts with the magic and advertises a huge data length makes the decoder wait
for more data forever — its state is a decode fixpoint that yields nothing, so
the subsequent valid frame is never returned. -/
theorem C9_counterexample :
    RenderFrame.decode (RenderFrame.mk 0 0 PixelFormat.ARGB8888 []).encode
        = some (RenderFrame.mk 0 0 PixelFormat.ARGB8888 []) ∧
    FrameDecoder.decode
        (FrameDecoder.new.push
          (([87, 80, 82, 68] ++ List.replicate 12 0 ++ [255, 255, 255, 255]) ++
            (RenderFrame.mk 0 0 PixelFormat.ARGB8888 []).encode))
      = (FrameDecoder.new.push
          (([87, 80, 82, 68] ++ List.replicate 12 0 ++ [255, 255, 255, 255]) ++
            (RenderFrame.mk 0 0 PixelFormat.ARGB8888 []).encode), none) ∧
    (decodeFrames 5
        (FrameDecoder.new.push
          (([87, 80, 82, 68] ++ List.replicate 12 0 ++ [255, 255, 255, 255]) ++
            (RenderFrame.mk 0 0 PixelFormat.ARGB8888 []).encode))).2 = [] := by
  refine ⟨by decide, by decide, by decide⟩

end Render

end Winpipe
